import Mathlib

/-
  Verification of the listingone Conversation Intelligence Engine and admin
  dashboard logic.  The engine itself (turn processor, field extractors,
  completion tracker, lead scorer, action recommender) is not shipped in the
  frontend sources; its behaviour is modelled from the specification.  The
  admin-dashboard definitions (notifications, lead filtering) are translated
  directly from the React sources.
-/

namespace ListingOne

/-! ## Character and string utilities (supporting the modelled extractors) -/

/-- Lowercase every character of a character list. -/
def lowerL (cs : List Char) : List Char := cs.map Char.toLower

/-- Substring test on character lists: does `hay` contain `needle`? -/
def containsList (needle : List Char) : List Char → Bool
  | [] => needle.isEmpty
  | c :: rest => needle.isPrefixOf (c :: rest) || containsList needle rest

/-- Case-insensitive containment of a lowercase keyword in a text. -/
def strContains (hay needle : String) : Bool :=
  containsList needle.data (lowerL hay.data)

/-- Accumulator for `splitRuns`: collect maximal runs of kept characters. -/
def splitRunsAux (keep : Char → Bool) : List Char → List Char → List (List Char)
  | [], acc => if acc.isEmpty then [] else [acc.reverse]
  | c :: cs, acc =>
    if keep c then splitRunsAux keep cs (c :: acc)
    else (if acc.isEmpty then [] else [acc.reverse]) ++ splitRunsAux keep cs []

/-- Maximal nonempty runs of characters satisfying `keep`. -/
def splitRuns (keep : Char → Bool) (cs : List Char) : List (List Char) :=
  splitRunsAux keep cs []

/-- Whitespace-separated tokens of a character list. -/
def wordsOf (cs : List Char) : List (List Char) :=
  splitRuns (fun c => !c.isWhitespace) cs

/-! ## Field extractors

Modelled from the spec: the repository ships only the frontend; the backend
field extractors (spec section 4.1) are reconstructed here from the
specification text. -/

/-- Extraction confidence flag attached to every extracted field. -/
inductive Confidence
  | high
  | low
deriving DecidableEq

/-- Modelled from the spec: characters a phone-number candidate may contain
(digits plus the separators dash, dot, space, parentheses and plus). -/
def isPhoneChar (c : Char) : Bool :=
  c.isDigit || c == '-' || c == '.' || c == ' ' || c == '(' || c == ')' || c == '+'

/-- Modelled from the spec: the phone extractor matches runs of 7 to 15 digits
with separators and normalizes to the digits-only canonical form. -/
def extractPhone (text : String) : Option String :=
  let runs := splitRuns isPhoneChar text.data
  let digitRuns := runs.map (fun r => r.filter Char.isDigit)
  ((digitRuns.filter (fun ds => decide (7 ≤ ds.length ∧ ds.length ≤ 15))).head?).map
    (fun ds => String.mk ds)

/-- Modelled from the spec: RFC-lite email shape, a local part, one at-sign
and a dotted domain. -/
def looksLikeEmail (tok : List Char) : Bool :=
  tok.count '@' == 1 &&
  (match splitRuns (fun c => c != '@') tok with
   | [l, d] =>
     !l.isEmpty && decide (2 ≤ (splitRuns (fun c => c != '.') d).length) &&
       (splitRuns (fun c => c != '.') d).all (fun p => !p.isEmpty)
   | _ => false)

/-- Modelled from the spec: the email extractor, first matching token wins. -/
def extractEmail (toks : List (List Char)) : Option String :=
  ((toks.filter looksLikeEmail).head?).map String.mk

/-- Modelled from the spec: lead-in phrases that introduce a name. -/
def namePhrases : List (List Char) :=
  [("my name is ").data, ("i am ").data, ("i\x27m ").data, ("this is ").data]

/-- Text remaining after the first case-insensitive occurrence of `phrase`. -/
def afterPhrase (phrase : List Char) : List Char → Option (List Char)
  | [] => none
  | c :: cs =>
    if phrase.isPrefixOf (lowerL (c :: cs)) then some ((c :: cs).drop phrase.length)
    else afterPhrase phrase cs

/-- Remainder after the first matching name lead-in phrase, if any. -/
def firstPhraseRest (cs : List Char) : Option (List Char) :=
  (namePhrases.filterMap (fun p => afterPhrase p cs)).head?

/-- Characters allowed inside a name candidate. -/
def isNameChar (c : Char) : Bool := c.isAlpha || c == ' '

/-- A nonempty all-alphabetic token. -/
def isAlphaTok (t : List Char) : Bool := !t.isEmpty && t.all Char.isAlpha

/-- Modelled from the spec: accept a short alphabetic phrase of 1 to 4 tokens
as a name candidate, rejecting digits and email-like content. -/
def nameFromCandidate (cs : List Char) : Option String :=
  let tokens := wordsOf (cs.takeWhile isNameChar)
  if decide (1 ≤ tokens.length) && decide (tokens.length ≤ 4) && tokens.all isAlphaTok then
    some (String.mk (List.intercalate ([' ']) tokens))
  else none

/-- Modelled from the spec: the name extractor accepts a lead-in phrase with
high confidence, or a bare short reply to a name prompt with low confidence. -/
def extractName (cs : List Char) (lastAssistant : Option (List Char)) :
    Option (String × Confidence) :=
  match firstPhraseRest cs with
  | some rest => (nameFromCandidate rest).map (fun n => (n, Confidence.high))
  | none =>
    match lastAssistant with
    | some la =>
      if containsList ("name").data (lowerL la) then
        (nameFromCandidate cs).map (fun n => (n, Confidence.low))
      else none
    | none => none

/-- Modelled from the spec: buy-family intent keywords. -/
def buyKeywords : List String := ["buy", "buying", "purchase", "purchasing", "buyer"]

/-- Modelled from the spec: sell-family intent keywords. -/
def sellKeywords : List String := ["sell", "selling", "seller", "listing", "list my"]

/-- Does the text contain a buy-family keyword? -/
def hasBuyKeyword (text : String) : Bool :=
  buyKeywords.any (fun k => strContains text k)

/-- Does the text contain a sell-family keyword? -/
def hasSellKeyword (text : String) : Bool :=
  sellKeywords.any (fun k => strContains text k)

/-- Modelled from the spec: transaction-intent extractor; a buy keyword with no
sell keyword means buying, the converse means selling, both or neither means
no extraction. -/
def extract_intent (text : String) : Option String :=
  match hasBuyKeyword text, hasSellKeyword text with
  | true, false => some "buying"
  | false, true => some "selling"
  | _, _ => none

/-- Modelled from the spec: property-type keywords. -/
def propertyTypeKeywords : List String :=
  ["house", "condo", "apartment", "townhouse", "villa", "duplex", "cabin", "land"]

/-- Modelled from the spec: the property-type extractor. -/
def extractPropertyType (text : String) : Option String :=
  (propertyTypeKeywords.filter (fun k => strContains text k)).head?

/-- Modelled from the spec: street-suffix words recognised in addresses. -/
def streetSuffixes : List String :=
  ["street", "st", "avenue", "ave", "road", "rd", "drive", "dr", "lane", "ln",
   "boulevard", "blvd", "court", "ct", "way", "place", "terrace"]

/-- Is the token a street-suffix word (case-insensitively)? -/
def isStreetSuffix (t : List Char) : Bool :=
  streetSuffixes.any (fun s => s.data == lowerL t)

/-- A nonempty all-digit token. -/
def isDigitsTok (t : List Char) : Bool := !t.isEmpty && t.all Char.isDigit

/-- Modelled from the spec: address extraction looks for a street number
followed by a word and a street suffix. -/
def findAddress : List (List Char) → Option String
  | t1 :: t2 :: t3 :: rest =>
    if isDigitsTok t1 && isAlphaTok t2 && isStreetSuffix t3 then
      some (String.mk (t1 ++ (' ' :: t2) ++ (' ' :: t3)))
    else if isDigitsTok t1 && isStreetSuffix t2 then
      some (String.mk (t1 ++ (' ' :: t2)))
    else findAddress (t2 :: t3 :: rest)
  | [t1, t2] =>
    if isDigitsTok t1 && isStreetSuffix t2 then some (String.mk (t1 ++ (' ' :: t2)))
    else none
  | _ => none

/-- Modelled from the spec: bedroom and bathroom counts are digit tokens
adjacent to a token starting with the given stem. -/
def findCountBefore (stem : List Char) : List (List Char) → Option String
  | t1 :: t2 :: rest =>
    if isDigitsTok t1 && stem.isPrefixOf (lowerL t2) then some (String.mk t1)
    else findCountBefore stem (t2 :: rest)
  | _ => none

/-- Modelled from the spec: urgent timeline phrases. -/
def urgentTimelineKeywords : List String :=
  ["immediately", "asap", "right away", "this week", "this month", "urgently"]

/-- Modelled from the spec: near-term timeline phrases. -/
def soonTimelineKeywords : List String :=
  ["next month", "soon", "few months", "this year"]

/-- Modelled from the spec: far-off timeline phrases. -/
def laterTimelineKeywords : List String :=
  ["next year", "within a year", "no rush", "eventually"]

/-- All recognised timeline phrases. -/
def timelineKeywords : List String :=
  urgentTimelineKeywords ++ soonTimelineKeywords ++ laterTimelineKeywords

/-- Modelled from the spec: the timeline extractor stores the first matching
timeline phrase. -/
def extractTimeline (text : String) : Option String :=
  (timelineKeywords.filter (fun k => strContains text k)).head?

/-! ## Conversation state and the turn processor

Modelled from the spec: the Conversation State Store and Turn Processor
(spec sections 3, 4.2, 4.3) are not present in the shipped frontend sources
and are reconstructed here from the specification text. -/

/-- The fixed enumerated field schema. -/
def schemaKeys : List String :=
  ["name", "email", "phone", "buying_or_selling", "property_type",
   "property_address", "bedrooms", "bathrooms", "timeline"]

/-- One stored extracted field: value, confidence and the turn it was set. -/
structure FieldEntry where
  value : String
  confidence : Confidence
  setAtTurn : Nat
deriving DecidableEq

/-- The field map of a conversation, an association list keyed by field key. -/
abbrev Fields := List (String × FieldEntry)

/-- First entry stored under a key, if any. -/
def lookupField : Fields → String → Option FieldEntry
  | [], _ => none
  | p :: rest, k => if p.1 = k then some p.2 else lookupField rest k

/-- Stored value under a key, if any. -/
def lookupValue (f : Fields) (k : String) : Option String :=
  (lookupField f k).map FieldEntry.value

/-- Replace the entry stored under `k` (all occurrences) by `e`. -/
def updateField (f : Fields) (k : String) (e : FieldEntry) : Fields :=
  f.map (fun p => if p.1 = k then (k, e) else p)

/-- Modelled from the spec: merge one extraction result; a low-confidence
extraction never demotes a high-confidence value, otherwise last write wins. -/
def mergeField (turn : Nat) (f : Fields) (k v : String) (c : Confidence) : Fields :=
  match lookupField f k with
  | some old =>
    if old.confidence = Confidence.high ∧ c = Confidence.low then f
    else updateField f k ⟨v, c, turn⟩
  | none => f ++ [(k, ⟨v, c, turn⟩)]

/-- Modelled from the spec: the schema boundary; extraction results whose key
is not in the fixed schema are rejected and never stored. -/
def acceptExtraction (turn : Nat) (f : Fields) (r : String × String × Confidence) : Fields :=
  if r.1 ∈ schemaKeys then mergeField turn f r.1 r.2.1 r.2.2 else f

/-- Merge a batch of extraction results into the field map. -/
def mergeExtractions (turn : Nat) (f : Fields) (rs : List (String × String × Confidence)) :
    Fields :=
  rs.foldl (acceptExtraction turn) f

/-- Message author role. -/
inductive Role
  | user
  | assistant
deriving DecidableEq

/-- One conversation message. -/
structure Message where
  role : Role
  content : String
  timestamp : Nat
deriving DecidableEq

/-- The per-session conversation state accumulated by the engine. -/
structure ConversationState where
  messages : List Message
  fields : Fields
  conversationComplete : Bool
deriving DecidableEq

/-- The empty state of a fresh session. -/
def initState : ConversationState := ⟨[], [], false⟩

/-- Role and content of each message, dropping timestamps. -/
def msgsRC (msgs : List Message) : List (Role × String) := msgs.map (fun m => (m.role, m.content))

/-- Content of the most recent assistant message, used as extractor context. -/
def lastAssistantRC (rc : List (Role × String)) : Option String :=
  (rc.reverse.filterMap (fun p => if p.1 = Role.assistant then some p.2 else none)).head?

/-- Modelled from the spec: run every field extractor over one message. -/
def extractAll (content : String) (lastAssistant : Option String) :
    List (String × String × Confidence) :=
  let cs := content.data
  let toks := wordsOf cs
  let results : List (String × Option (String × Confidence)) :=
    [("name", extractName cs (lastAssistant.map String.data)),
     ("email", (extractEmail toks).map (fun v => (v, Confidence.high))),
     ("phone", (extractPhone content).map (fun v => (v, Confidence.high))),
     ("buying_or_selling", (extract_intent content).map (fun v => (v, Confidence.high))),
     ("property_type", (extractPropertyType content).map (fun v => (v, Confidence.high))),
     ("property_address", (findAddress toks).map (fun v => (v, Confidence.high))),
     ("bedrooms", (findCountBefore ("bed").data toks).map (fun v => (v, Confidence.high))),
     ("bathrooms", (findCountBefore ("bath").data toks).map (fun v => (v, Confidence.high))),
     ("timeline", (extractTimeline content).map (fun v => (v, Confidence.high)))]
  results.filterMap (fun kr => kr.2.map (fun vc => (kr.1, vc.1, vc.2)))

/-- Is a field key currently set (non-null)? -/
def hasField (f : Fields) (k : String) : Bool := (lookupField f k).isSome

/-- Modelled from the spec: the five required slots of the Completion Tracker;
the property slot is satisfied by either property type or property address. -/
def slotsOf (f : Fields) : List Bool :=
  [hasField f "name", hasField f "email", hasField f "phone",
   hasField f "buying_or_selling",
   hasField f "property_type" || hasField f "property_address"]

/-- Modelled from the spec: completeness percentage, satisfied required slots
over five total, as a percentage. -/
def completenessOf (f : Fields) : Nat := 20 * (slotsOf f).countP (fun b => b)

/-- Modelled from the spec: process one message for a session; appends the
message, merges extractor output for user messages, and latches the
conversation-complete flag once completeness reaches 100. -/
def processTurn (st : ConversationState) (role : Role) (content : String) (ts : Nat) :
    ConversationState :=
  let turn := st.messages.length + 1
  let fields' :=
    if role = Role.user then
      mergeExtractions turn st.fields
        (extractAll content (lastAssistantRC (msgsRC st.messages)))
    else st.fields
  { messages := st.messages ++ [⟨role, content, ts⟩]
    fields := fields'
    conversationComplete := st.conversationComplete || (completenessOf fields' == 100) }

/-! ## Lead scorer and action recommender

Modelled from the spec: sections 4.4 and 4.5; the spec gives the weight
budget (50 completeness, 30 engagement, 20 timeline) and the fixed category
thresholds, and marks the exact engagement constants as tunable. -/

/-- Lead priority category. -/
inductive Category
  | hot
  | warm
  | qualified
  | cold
deriving DecidableEq

/-- Follow-up priority level. -/
inductive Priority
  | urgent
  | high
  | medium
  | low
deriving DecidableEq

/-- Modelled from the spec: the fixed score thresholds, 80 is hot, 60 warm,
40 qualified, below 40 cold. -/
def categoryOfScore (n : Nat) : Category :=
  if 80 ≤ n then Category.hot
  else if 60 ≤ n then Category.warm
  else if 40 ≤ n then Category.qualified
  else Category.cold

/-- Contents of the user messages of a conversation. -/
def userContents (rc : List (Role × String)) : List String :=
  rc.filterMap (fun p => if p.1 = Role.user then some p.2 else none)

/-- Modelled from the spec: engagement contribution, a capped function of the
user message count and average user message length. -/
def engagementScore (rc : List (Role × String)) : Nat :=
  let us := userContents rc
  let total := us.foldl (fun a s => a + s.length) 0
  let avg := if us.length = 0 then 0 else total / us.length
  min 30 (3 * us.length + avg / 10)

/-- Is a stored timeline value urgent? -/
def isUrgentTimeline (t : String) : Bool :=
  urgentTimelineKeywords.any (fun k => strContains t k)

/-- Is a stored timeline value near-term? -/
def isSoonTimeline (t : String) : Bool :=
  soonTimelineKeywords.any (fun k => strContains t k)

/-- Modelled from the spec: timeline-urgency contribution, higher for shorter
stated timelines, zero when unspecified. -/
def timelineScore (f : Fields) : Nat :=
  match lookupValue f "timeline" with
  | none => 0
  | some t => if isUrgentTimeline t then 20 else if isSoonTimeline t then 10 else 5

/-- Does the state record an explicitly urgent timeline? -/
def hasUrgentTimeline (f : Fields) : Bool :=
  match lookupValue f "timeline" with
  | none => false
  | some t => isUrgentTimeline t

/-- Modelled from the spec: priority from category and timeline urgency, with
an urgent timeline flooring the priority at medium. -/
def priorityOf (c : Category) (urgent : Bool) : Priority :=
  match c, urgent with
  | Category.hot, true => Priority.urgent
  | Category.hot, false => Priority.high
  | Category.warm, _ => Priority.medium
  | _, true => Priority.medium
  | _, false => Priority.low

/-- A lead score: total, threshold category and derived priority. -/
structure LeadScore where
  total_score : Nat
  category : Category
  priority : Priority
deriving DecidableEq

/-- Modelled from the spec: the Lead Scorer, a weighted sum of completeness,
engagement and timeline urgency, bucketed by the fixed thresholds. -/
def leadScoreOf (rc : List (Role × String)) (f : Fields) : LeadScore :=
  let total := completenessOf f * 50 / 100 + engagementScore rc + timelineScore f
  { total_score := total
    category := categoryOfScore total
    priority := priorityOf (categoryOfScore total) (hasUrgentTimeline f) }

/-- A recommended follow-up action. -/
structure RecommendedAction where
  title : String
  description : String
  priority : Priority
  dueInDays : Nat
  contact_info : Option (Option String × Option String)
deriving DecidableEq

/-- Modelled from the spec: the Action Recommender, a pure function of fields,
score and completeness, highest priority first. -/
def recommendedActionsOf (f : Fields) (score : LeadScore) (comp : Nat) :
    List RecommendedAction :=
  (if score.category = Category.hot then
     [⟨"Schedule consultation call", "Contact this hot lead to schedule a consultation",
       (if score.priority = Priority.urgent then Priority.urgent else Priority.high), 1,
       some (lookupValue f "email", lookupValue f "phone")⟩]
   else []) ++
  (if (lookupValue f "email").isNone && (lookupValue f "phone").isNone then
     [⟨"Attempt recontact", "No contact channel captured yet", Priority.high, 1, none⟩]
   else []) ++
  (if score.category = Category.cold ∧ comp < 40 then
     [⟨"Send nurture email", "Low engagement lead, send a nurture email",
       Priority.low, 7, none⟩]
   else [])

/-- The immutable snapshot returned to the caller after each turn. -/
structure Snapshot where
  fields : Fields
  completeness_percentage : Nat
  conversation_complete : Bool
  lead_score : LeadScore
  recommended_actions : List RecommendedAction
deriving DecidableEq

/-- The timestamp-free core of a conversation state: message roles and
contents, the field map, and the completion latch. -/
def stateCore (st : ConversationState) : List (Role × String) × Fields × Bool :=
  (msgsRC st.messages, st.fields, st.conversationComplete)

/-- Build the derived snapshot from a timestamp-free core. -/
def snapshotFromCore (core : List (Role × String) × Fields × Bool) : Snapshot :=
  let comp := completenessOf core.2.1
  let score := leadScoreOf core.1 core.2.1
  ⟨core.2.1, comp, core.2.2, score, recommendedActionsOf core.2.1 score comp⟩

/-- Snapshot of a conversation state. -/
def snapshotOf (st : ConversationState) : Snapshot := snapshotFromCore (stateCore st)

/-! ## Validation and the session engine -/

/-- Empty or whitespace-only content. -/
def isBlank (s : String) : Bool := s.data.all Char.isWhitespace

/-- Modelled from the spec: a well-formed opaque session identifier; the spec
pins no exact format, sessions are UUID-style identifiers, so a nonempty
string of alphanumerics and dashes is accepted. -/
def validSessionId (s : String) : Bool :=
  !s.data.isEmpty && s.data.all (fun c => c.isAlphanum || c == '-')

/-- Modelled from the spec: the error taxonomy surfaced by `process_turn`. -/
inductive ValidationError
  | emptyContent
  | invalidSessionId
deriving DecidableEq

/-- The engine store: one conversation state per session id. -/
abbrev Engine := List (String × ConversationState)

/-- The engine before any turn. -/
def engInit : Engine := []

/-- Read accessor for the current state of a session. -/
def getState : Engine → String → Option ConversationState
  | [], _ => none
  | p :: rest, sid => if p.1 = sid then some p.2 else getState rest sid

/-- Store a session state, replacing an existing entry or appending a new one. -/
def setState (eng : Engine) (sid : String) (st : ConversationState) : Engine :=
  if (getState eng sid).isSome then
    eng.map (fun p => if p.1 = sid then (sid, st) else p)
  else eng ++ [(sid, st)]

/-- Modelled from the spec: `process_turn`; rejects malformed input with a
`ValidationError` and otherwise appends the message, re-derives the state and
returns the updated engine with the new snapshot. -/
def process_turn (eng : Engine) (sid : String) (role : Role) (content : String) (ts : Nat) :
    Except ValidationError (Engine × Snapshot) :=
  if validSessionId sid then
    if isBlank content then Except.error ValidationError.emptyContent
    else
      let st := (getState eng sid).getD initState
      let st' := processTurn st role content ts
      Except.ok (setState eng sid st', snapshotOf st')
  else Except.error ValidationError.invalidSessionId

/-- One `process_turn` call as seen by the store: a failed call leaves the
engine unchanged. -/
structure TurnInput where
  sid : String
  role : Role
  content : String
  ts : Nat
deriving DecidableEq

/-- Apply one turn to the engine, keeping the old store on a rejected turn. -/
def stepEngine (eng : Engine) (t : TurnInput) : Engine :=
  match process_turn eng t.sid t.role t.content t.ts with
  | Except.ok (e, _) => e
  | Except.error _ => eng

/-- Apply a sequence of turns to the engine. -/
def runEngine (eng : Engine) (ts : List TurnInput) : Engine := ts.foldl stepEngine eng

/-- Snapshot returned by one `process_turn` call, if the call succeeded. -/
def returnedSnapshot (eng : Engine) (sid : String) (role : Role) (content : String)
    (ts : Nat) : Option Snapshot :=
  match process_turn eng sid role content ts with
  | Except.ok (_, snap) => some snap
  | Except.error _ => none

/-- One turn of a single fixed session driven through `process_turn` on a
singleton store; a rejected turn keeps the state. -/
def stepState (st : ConversationState) (tr : Role × String × Nat) : ConversationState :=
  match process_turn [("session", st)] "session" tr.1 tr.2.1 tr.2.2 with
  | Except.ok (eng, _) => (getState eng "session").getD st
  | Except.error _ => st

/-- Run an ordered message sequence from the empty state. -/
def runConversation (ts : List (Role × String × Nat)) : ConversationState :=
  ts.foldl stepState initState

/-- The timestamp-free image of one turn step on state cores. -/
def coreStep (core : List (Role × String) × Fields × Bool) (role : Role) (content : String) :
    List (Role × String) × Fields × Bool :=
  let turn := core.1.length + 1
  let fields' :=
    if role = Role.user then
      mergeExtractions turn core.2.1 (extractAll content (lastAssistantRC core.1))
    else core.2.1
  (core.1 ++ [(role, content)], fields',
   core.2.2 || (completenessOf fields' == 100))

/-! ## Admin dashboard: notifications

Translated from `src/unnamed/part_002` (`addNotification` and the
`notifications` state). -/

/-- One dashboard notification, as built by `addNotification`. -/
structure AppNotification where
  id : String
  kind : String
  title : String
  message : String
  timestamp : Nat
  read : Bool
deriving DecidableEq

/-- The notification object `addNotification` constructs; `read` starts false
and the id is the creation time rendered as a string. -/
def mkNotification (kind title message : String) (now : Nat) : AppNotification :=
  ⟨toString now, kind, title, message, now, false⟩

/-- `addNotification`: prepend the new notification and keep only the first
nine previous ones. -/
def addNotification (prev : List AppNotification) (kind title message : String)
    (now : Nat) : List AppNotification :=
  mkNotification kind title message now :: prev.take 9

/-- Apply a sequence of `addNotification` calls starting from the empty list. -/
def runNotifications (adds : List (String × String × String × Nat)) :
    List AppNotification :=
  adds.foldl (fun acc a => addNotification acc a.1 a.2.1 a.2.2.1 a.2.2.2) []

/-! ## Admin dashboard: lead filtering

Translated from `filteredLeads` in `src/unnamed/part_002` and
`src/frontend/app/layout.tsx` (the two dashboards use identical logic). -/

/-- The `user_data` object of a dashboard lead. -/
structure UserData where
  user_name : Option String
  user_email : Option String
  user_phone_number : Option String
  user_buying_or_selling : Option String
  user_property_address : Option String
deriving DecidableEq

/-- The `lead_score` object of a dashboard lead. -/
structure LeadScoreInfo where
  total_score : Nat
  category : String
  priority : String
deriving DecidableEq

/-- A dashboard lead row. -/
structure Lead where
  session_id : String
  user_data : UserData
  lead_score : Option LeadScoreInfo
  conversation_complete : Bool
deriving DecidableEq

/-- Optional-chained lowercase `includes`, false when the field is absent. -/
def optIncludes (o : Option String) (term : String) : Bool :=
  match o with
  | some s => containsList (lowerL term.data) (lowerL s.data)
  | none => false

/-- The `matchesSearch` clause of the lead filter. -/
def matchesSearch (searchTerm : String) (l : Lead) : Bool :=
  searchTerm == "" || optIncludes l.user_data.user_name searchTerm ||
    optIncludes l.user_data.user_email searchTerm

/-- The `matchesStatus` clause of the lead filter. -/
def matchesStatus (statusFilter : String) (l : Lead) : Bool :=
  statusFilter == "all" ||
    (statusFilter == "complete" && l.conversation_complete) ||
    (statusFilter == "incomplete" && !l.conversation_complete)

/-- The `matchesScore` clause of the lead filter; optional chaining makes a
lead with no score match only the `all` filter. -/
def matchesScore (scoreFilter : String) (l : Lead) : Bool :=
  scoreFilter == "all" ||
    (match l.lead_score with
     | some s => lowerL s.category.data == lowerL scoreFilter.data
     | none => false)

/-- The combined lead predicate of `filteredLeads`. -/
def leadMatches (searchTerm statusFilter scoreFilter : String) (l : Lead) : Bool :=
  matchesSearch searchTerm l && matchesStatus statusFilter l &&
    matchesScore scoreFilter l

/-- `filteredLeads`: the leads array filtered by search, status and score. -/
def filteredLeads (leads : List Lead) (searchTerm statusFilter scoreFilter : String) :
    List Lead :=
  leads.filter (leadMatches searchTerm statusFilter scoreFilter)

/-! ## Theorems -/

/-- Completeness over the five slot booleans is bounded by 100 and reaches 100
exactly when all five are true. -/
lemma completeness_bools (b1 b2 b3 b4 b5 : Bool) :
    20 * ([b1, b2, b3, b4, b5].countP (fun b => b)) ≤ 100 ∧
    (20 * ([b1, b2, b3, b4, b5].countP (fun b => b)) = 100 ↔
      (b1 = true ∧ b2 = true ∧ b3 = true ∧ b4 = true ∧ b5 = true)) := by
  cases b1 <;> cases b2 <;> cases b3 <;> cases b4 <;> cases b5 <;> decide

/-- Claim C3: for every conversation state, the completeness percentage lies
between 0 and 100, and equals 100 exactly when every required slot is set:
name, email, phone, buying-or-selling, and a property slot satisfied by either
property type or property address. -/
theorem completeness_bounded_iff_required (st : ConversationState) :
    0 ≤ completenessOf st.fields ∧ completenessOf st.fields ≤ 100 ∧
    (completenessOf st.fields = 100 ↔
      (hasField st.fields "name" = true ∧ hasField st.fields "email" = true ∧
       hasField st.fields "phone" = true ∧
       hasField st.fields "buying_or_selling" = true ∧
       (hasField st.fields "property_type" = true ∨
        hasField st.fields "property_address" = true))) := by
  have h := completeness_bools (hasField st.fields "name") (hasField st.fields "email")
    (hasField st.fields "phone") (hasField st.fields "buying_or_selling")
    (hasField st.fields "property_type" || hasField st.fields "property_address")
  rw [Bool.or_eq_true] at h
  exact ⟨Nat.zero_le _, h.1, h.2⟩

/-- Claim C7: the transaction-intent extractor returns buying for a buy-family
keyword without a sell-family one, selling for the converse, and extracts
nothing when both families or neither are present. -/
theorem intent_keyword_classification (text : String) :
    (hasBuyKeyword text = true → hasSellKeyword text = false →
      extract_intent text = some "buying") ∧
    (hasSellKeyword text = true → hasBuyKeyword text = false →
      extract_intent text = some "selling") ∧
    (hasBuyKeyword text = hasSellKeyword text → extract_intent text = none) := by
  unfold extract_intent
  cases hb : hasBuyKeyword text <;> cases hs : hasSellKeyword text <;> simp [hb, hs]

/-- Witness for C7 at a concrete buying message. -/
theorem intent_keyword_classification_witness :
    extract_intent "I want to buy a home" = some "buying" :=
  (intent_keyword_classification "I want to buy a home").1 (by decide) (by decide)

/-- Claim C9: after any sequence of `addNotification` calls from the empty
list, the dashboard holds at most 10 notifications and the most recently
added one is first. -/
theorem notifications_capped_newest_first
    (adds : List (String × String × String × Nat)) :
    (runNotifications adds).length ≤ 10 ∧
    (∀ kind title message now,
      (runNotifications (adds ++ [(kind, title, message, now)])).head? =
        some (mkNotification kind title message now)) := by
  constructor
  · have aux : ∀ (l : List (String × String × String × Nat)) (acc : List AppNotification),
        acc.length ≤ 10 →
        (l.foldl (fun acc a => addNotification acc a.1 a.2.1 a.2.2.1 a.2.2.2) acc).length
          ≤ 10 := by
      intro l
      induction l with
      | nil => intro acc h; simpa using h
      | cons a rest ih =>
        intro acc _
        simp only [List.foldl_cons]
        apply ih
        simp only [addNotification, List.length_cons, List.length_take]
        omega
    exact aux adds [] (by simp)
  · intro kind title message now
    rw [runNotifications, List.foldl_append]
    simp [addNotification, runNotifications]

/-- Claim C10: the filtered lead list is a subsequence of the lead list in
which every element passes the combined predicate, and the default filters
(empty search, both filters `all`) keep every lead. -/
theorem filtered_leads_subsequence_default_identity
    (leads : List Lead) (searchTerm statusFilter scoreFilter : String) :
    List.Sublist (filteredLeads leads searchTerm statusFilter scoreFilter) leads ∧
    (filteredLeads leads searchTerm statusFilter scoreFilter).all
      (leadMatches searchTerm statusFilter scoreFilter) = true ∧
    filteredLeads leads "" "all" "all" = leads := by
  refine ⟨List.filter_sublist _, ?_, ?_⟩
  · rw [List.all_eq_true]
    intro x hx
    simpa using (List.mem_filter.mp hx).2
  · rw [filteredLeads, List.filter_eq_self]
    intro l _
    simp [leadMatches, matchesSearch, matchesStatus, matchesScore]

/-! ### Engine store lemmas -/

/-- Replacing the entry of `k` in the store yields `st` under `k` when an
entry for `k` exists. -/
lemma getState_map_replace (eng : Engine) (k : String) (st : ConversationState)
    (h : (getState eng k).isSome = true) :
    getState (eng.map (fun p => if p.1 = k then (k, st) else p)) k = some st := by
  induction eng with
  | nil => simp [getState] at h
  | cons p rest ih =>
    by_cases hp : p.1 = k
    · simp [getState, hp]
    · simp [getState, hp] at h ⊢
      exact ih h

/-- Appending a fresh entry for `k` makes it visible under `k`. -/
lemma getState_append_single (eng : Engine) (k : String) (st : ConversationState)
    (h : getState eng k = none) :
    getState (eng ++ [(k, st)]) k = some st := by
  induction eng with
  | nil => simp [getState]
  | cons p rest ih =>
    by_cases hp : p.1 = k
    · simp [getState, hp] at h
    · simp [getState, hp] at h ⊢
      exact ih h

/-- After `setState eng k st`, session `k` reads back `st`. -/
lemma getState_setState_self (eng : Engine) (k : String) (st : ConversationState) :
    getState (setState eng k st) k = some st := by
  unfold setState
  by_cases hs : (getState eng k).isSome = true
  · rw [if_pos hs]
    exact getState_map_replace eng k st hs
  · rw [if_neg hs]
    have ho : getState eng k = none := by
      cases h2 : getState eng k
      · rfl
      · rw [h2] at hs
        simp at hs
    exact getState_append_single eng k st ho

/-- Replacing the entry of `k` leaves every other session unchanged. -/
lemma getState_map_replace_other (eng : Engine) (k : String) (st : ConversationState)
    (sid : String) (h : sid ≠ k) :
    getState (eng.map (fun p => if p.1 = k then (k, st) else p)) sid =
      getState eng sid := by
  induction eng with
  | nil => rfl
  | cons p rest ih =>
    by_cases hp : p.1 = k
    · have hk : ¬ (k = sid) := fun hh => h hh.symm
      simp [getState, hp, hk, ih]
    · by_cases hps : p.1 = sid
      · simp only [List.map_cons, if_neg hp, getState, if_pos hps]
      · simp only [List.map_cons, if_neg hp, getState, if_neg hps, ih]

/-- Appending a fresh entry for `k` leaves every other session unchanged. -/
lemma getState_append_single_other (eng : Engine) (k : String) (st : ConversationState)
    (sid : String) (h : sid ≠ k) :
    getState (eng ++ [(k, st)]) sid = getState eng sid := by
  induction eng with
  | nil =>
    have hk : ¬ (k = sid) := fun hh => h hh.symm
    simp [getState, hk]
  | cons p rest ih =>
    by_cases hps : p.1 = sid
    · simp [getState, hps]
    · simp [getState, hps, ih]

/-- After `setState eng k st`, every session other than `k` is unchanged. -/
lemma getState_setState_other (eng : Engine) (k : String) (st : ConversationState)
    (sid : String) (h : sid ≠ k) :
    getState (setState eng k st) sid = getState eng sid := by
  unfold setState
  by_cases hs : (getState eng k).isSome = true
  · rw [if_pos hs]
    exact getState_map_replace_other eng k st sid h
  · rw [if_neg hs]
    exact getState_append_single_other eng k st sid h

/-! ### Claim C4: validation failures are surfaced and leave state unchanged -/

/-- Claim C4: a `process_turn` call with blank content or a malformed session
id fails with a `ValidationError`, and the failed call leaves the engine store
(and hence the session state, its messages and fields) unchanged. -/
theorem invalid_turn_rejected_state_unchanged (eng : Engine) (sid : String) (role : Role)
    (content : String) (ts : Nat)
    (h : isBlank content = true ∨ validSessionId sid = false) :
    (∃ e, process_turn eng sid role content ts = Except.error e) ∧
    stepEngine eng ⟨sid, role, content, ts⟩ = eng := by
  cases hv : validSessionId sid with
  | false =>
    refine ⟨⟨ValidationError.invalidSessionId, ?_⟩, ?_⟩
    · simp [process_turn, hv]
    · simp [stepEngine, process_turn, hv]
  | true =>
    have hb : isBlank content = true := by
      rcases h with h | h
      · exact h
      · simp [h] at hv
    refine ⟨⟨ValidationError.emptyContent, ?_⟩, ?_⟩
    · simp [process_turn, hv, hb]
    · simp [stepEngine, process_turn, hv, hb]

/-- Witness for C4: a whitespace-only message is rejected and the store stays
empty. -/
theorem invalid_turn_rejected_state_unchanged_witness :
    (∃ e, process_turn engInit "s1" Role.user "   " 0 = Except.error e) ∧
    stepEngine engInit ⟨"s1", Role.user, "   ", 0⟩ = engInit :=
  invalid_turn_rejected_state_unchanged engInit "s1" Role.user "   " 0 (Or.inl (by decide))

/-! ### Claim C2: score and category are consistent -/

/-- The threshold buckets of `categoryOfScore`. -/
lemma categoryOfScore_spec (n : Nat) :
    (80 ≤ n → categoryOfScore n = Category.hot) ∧
    (60 ≤ n → n < 80 → categoryOfScore n = Category.warm) ∧
    (40 ≤ n → n < 60 → categoryOfScore n = Category.qualified) ∧
    (n < 40 → categoryOfScore n = Category.cold) := by
  refine ⟨fun h => ?_, fun h1 h2 => ?_, fun h1 h2 => ?_, fun h => ?_⟩
  · rw [categoryOfScore, if_pos h]
  · rw [categoryOfScore, if_neg (by omega), if_pos h1]
  · rw [categoryOfScore, if_neg (by omega), if_neg (by omega), if_pos h1]
  · rw [categoryOfScore, if_neg (by omega), if_neg (by omega), if_neg (by omega)]

/-- The snapshot category is computed from the snapshot total. -/
lemma snapshot_category_eq (st : ConversationState) :
    (snapshotOf st).lead_score.category =
      categoryOfScore (snapshotOf st).lead_score.total_score := rfl

/-- Claim C2: in every snapshot the engine returns, the lead category is
exactly the threshold bucket of the total score: hot at 80 and above, warm in
[60, 80), qualified in [40, 60), cold below 40. -/
theorem lead_category_matches_thresholds (eng : Engine) (sid : String) (role : Role)
    (content : String) (ts : Nat) (snap : Snapshot)
    (h : returnedSnapshot eng sid role content ts = some snap) :
    (80 ≤ snap.lead_score.total_score → snap.lead_score.category = Category.hot) ∧
    (60 ≤ snap.lead_score.total_score → snap.lead_score.total_score < 80 →
      snap.lead_score.category = Category.warm) ∧
    (40 ≤ snap.lead_score.total_score → snap.lead_score.total_score < 60 →
      snap.lead_score.category = Category.qualified) ∧
    (snap.lead_score.total_score < 40 → snap.lead_score.category = Category.cold) := by
  unfold returnedSnapshot process_turn at h
  by_cases hv : validSessionId sid = true
  · by_cases hb : isBlank content = true
    · simp [hv, hb] at h
    · simp [hv, hb] at h
      rw [← h, snapshot_category_eq]
      exact categoryOfScore_spec _
  · simp [hv] at h

/-- Witness for C2: one successful turn with a short greeting scores below 40
and is bucketed cold. -/
theorem lead_category_matches_thresholds_witness :
    (snapshotOf (processTurn initState Role.user "hello there" 7)).lead_score.category =
      Category.cold :=
  (lead_category_matches_thresholds engInit "s1" Role.user "hello there" 7
      (snapshotOf (processTurn initState Role.user "hello there" 7)) (by decide)).2.2.2
    (by decide)

/-! ### Claim C1: the completion latch is monotonic -/

/-- One turn never clears the completion latch. -/
lemma processTurn_complete_mono (st : ConversationState) (r : Role) (c : String) (ts : Nat)
    (h : st.conversationComplete = true) :
    (processTurn st r c ts).conversationComplete = true := by
  simp [processTurn, h]

/-- A successful `process_turn` stores the newly processed state of the
session. -/
lemma process_turn_ok_inv (eng : Engine) (sid : String) (role : Role) (content : String)
    (ts : Nat) (pr : Engine × Snapshot)
    (h : process_turn eng sid role content ts = Except.ok pr) :
    pr.1 = setState eng sid
      (processTurn ((getState eng sid).getD initState) role content ts) := by
  unfold process_turn at h
  by_cases hv : validSessionId sid = true
  · by_cases hb : isBlank content = true
    · rw [if_pos hv, if_pos hb] at h
      cases h
    · rw [if_pos hv, if_neg hb] at h
      cases h
      rfl
  · rw [if_neg hv] at h
    cases h

/-- One engine step never clears the completion latch of any session. -/
lemma stepEngine_complete_mono (eng : Engine) (t : TurnInput) (sid : String)
    (h : (getState eng sid).map ConversationState.conversationComplete = some true) :
    (getState (stepEngine eng t) sid).map ConversationState.conversationComplete =
      some true := by
  unfold stepEngine
  cases hp : process_turn eng t.sid t.role t.content t.ts with
  | error e => exact h
  | ok pr =>
    obtain ⟨eng', snap⟩ := pr
    have h1 := process_turn_ok_inv _ _ _ _ _ _ hp
    simp only at h1 ⊢
    rw [h1]
    by_cases hsid : sid = t.sid
    · subst hsid
      obtain ⟨st0, h0, hc⟩ := Option.map_eq_some'.mp h
      rw [h0]
      simp only [Option.getD_some]
      rw [getState_setState_self]
      simp [processTurn_complete_mono _ _ _ _ hc]
    · rw [getState_setState_other _ _ _ _ hsid]
      exact h

/-- A run of engine steps never clears the completion latch of any session. -/
lemma runEngine_complete_mono (sid : String) :
    ∀ (ts : List TurnInput) (eng : Engine),
      (getState eng sid).map ConversationState.conversationComplete = some true →
      (getState (runEngine eng ts) sid).map ConversationState.conversationComplete =
        some true := by
  intro ts
  induction ts with
  | nil => intro eng h; simpa [runEngine] using h
  | cons t rest ih =>
    intro eng h
    rw [runEngine, List.foldl_cons]
    exact ih _ (stepEngine_complete_mono _ _ _ h)

/-- Claim C1: once a session snapshot reports `conversation_complete = true`,
every later snapshot of that session reports true as well, for every sequence
of `process_turn` calls from the initial store. -/
theorem conversation_complete_monotonic (sid : String) (ts1 ts2 : List TurnInput)
    (h : (getState (runEngine engInit ts1) sid).map
      ConversationState.conversationComplete = some true) :
    (getState (runEngine engInit (ts1 ++ ts2)) sid).map
      ConversationState.conversationComplete = some true := by
  rw [runEngine, List.foldl_append]
  exact runEngine_complete_mono sid ts2 _ h

/-- The fully qualifying three-message scenario of the spec. -/
def scenarioTurns : List TurnInput :=
  [⟨"s1", Role.user, "Hi, I am Jane Doe, my email is jane@example.com", 1⟩,
   ⟨"s1", Role.user, "My phone is (555) 867-5309 and we want to sell", 2⟩,
   ⟨"s1", Role.user, "It is a 3 bedroom house at 12 Elm Street", 3⟩]

/-- Witness for C1: after the qualifying scenario the latch is set, and a
further turn keeps it set. -/
theorem conversation_complete_monotonic_witness :
    (getState (runEngine engInit (scenarioTurns ++ [⟨"s1", Role.user, "thanks", 4⟩])) "s1").map
      ConversationState.conversationComplete = some true :=
  conversation_complete_monotonic "s1" scenarioTurns [⟨"s1", Role.user, "thanks", 4⟩]
    (by decide)

/-! ### Claim C5: field keys stay inside the fixed schema -/

/-- Every pair of an updated field map either carries the updated key or was
already present. -/
lemma mem_updateField {f : Fields} {k : String} {e : FieldEntry} {p : String × FieldEntry}
    (hp : p ∈ updateField f k e) : p.1 = k ∨ p ∈ f := by
  unfold updateField at hp
  obtain ⟨q, hq, hqe⟩ := List.mem_map.mp hp
  by_cases h : q.1 = k
  · rw [if_pos h] at hqe
    left
    rw [← hqe]
  · rw [if_neg h] at hqe
    right
    rw [← hqe]
    exact hq

/-- Merging a schema-keyed result keeps every key in the schema. -/
lemma mergeField_keys {f : Fields} (hf : ∀ p ∈ f, p.1 ∈ schemaKeys) (turn : Nat)
    (k v : String) (c : Confidence) (hk : k ∈ schemaKeys) :
    ∀ p ∈ mergeField turn f k v c, p.1 ∈ schemaKeys := by
  intro p hp
  unfold mergeField at hp
  split at hp
  · split at hp
    · exact hf p hp
    · rcases mem_updateField hp with h | h
      · rw [h]; exact hk
      · exact hf p h
  · rcases List.mem_append.mp hp with h | h
    · exact hf p h
    · rw [List.mem_singleton] at h
      rw [h]
      exact hk

/-- The boundary check: accepting any extraction result keeps every key in
the schema. -/
lemma acceptExtraction_keys {f : Fields} (hf : ∀ p ∈ f, p.1 ∈ schemaKeys) (turn : Nat)
    (r : String × String × Confidence) :
    ∀ p ∈ acceptExtraction turn f r, p.1 ∈ schemaKeys := by
  intro p hp
  by_cases hk : r.1 ∈ schemaKeys
  · rw [acceptExtraction, if_pos hk] at hp
    exact mergeField_keys hf turn r.1 r.2.1 r.2.2 hk p hp
  · rw [acceptExtraction, if_neg hk] at hp
    exact hf p hp

/-- Merging any batch of extraction results keeps every key in the schema. -/
lemma mergeExtractions_keys (turn : Nat) :
    ∀ (rs : List (String × String × Confidence)) (f : Fields),
      (∀ p ∈ f, p.1 ∈ schemaKeys) →
      ∀ p ∈ mergeExtractions turn f rs, p.1 ∈ schemaKeys := by
  intro rs
  induction rs with
  | nil => intro f hf; simpa [mergeExtractions] using hf
  | cons r rest ih =>
    intro f hf p hp
    rw [mergeExtractions, List.foldl_cons] at hp
    exact ih _ (acceptExtraction_keys hf turn r) p hp

/-- One processed turn keeps every field key in the schema. -/
lemma processTurn_keys (st : ConversationState) (r : Role) (c : String) (ts : Nat)
    (hf : ∀ p ∈ st.fields, p.1 ∈ schemaKeys) :
    ∀ p ∈ (processTurn st r c ts).fields, p.1 ∈ schemaKeys := by
  intro p hp
  have hp' : p ∈ (if r = Role.user then
      mergeExtractions (st.messages.length + 1) st.fields
        (extractAll c (lastAssistantRC (msgsRC st.messages)))
    else st.fields) := hp
  by_cases hr : r = Role.user
  · rw [if_pos hr] at hp'
    exact mergeExtractions_keys _ _ _ hf p hp'
  · rw [if_neg hr] at hp'
    exact hf p hp'

/-- A stored session state is a member of the engine store. -/
lemma getState_mem : ∀ (eng : Engine) (sid : String) (st : ConversationState),
    getState eng sid = some st → ∃ k, (k, st) ∈ eng := by
  intro eng
  induction eng with
  | nil => intro sid st h; simp [getState] at h
  | cons p rest ih =>
    obtain ⟨pk, pst⟩ := p
    intro sid st h
    by_cases hp : pk = sid
    · simp only [getState, if_pos hp, Option.some.injEq] at h
      exact ⟨pk, by rw [← h]; exact List.mem_cons_self _ _⟩
    · simp only [getState, if_neg hp] at h
      obtain ⟨k, hk⟩ := ih sid st h
      exact ⟨k, List.mem_cons_of_mem _ hk⟩

/-- One engine step preserves the schema-key invariant of every stored
session. -/
lemma stepEngine_keys (eng : Engine) (t : TurnInput)
    (heng : ∀ q ∈ eng, ∀ p ∈ q.2.fields, p.1 ∈ schemaKeys) :
    ∀ q ∈ stepEngine eng t, ∀ p ∈ q.2.fields, p.1 ∈ schemaKeys := by
  unfold stepEngine
  cases hp : process_turn eng t.sid t.role t.content t.ts with
  | error e => exact heng
  | ok pr =>
    obtain ⟨eng', snap⟩ := pr
    have h1 := process_turn_ok_inv _ _ _ _ _ _ hp
    simp only at h1 ⊢
    rw [h1]
    have hst : ∀ p ∈ (processTurn ((getState eng t.sid).getD initState)
        t.role t.content t.ts).fields, p.1 ∈ schemaKeys := by
      apply processTurn_keys
      cases hg : getState eng t.sid with
      | none =>
        intro p hp2
        simp [initState] at hp2
      | some s =>
        obtain ⟨k, hk⟩ := getState_mem eng t.sid s hg
        intro p hp2
        exact heng (k, s) hk p hp2
    intro q hq
    unfold setState at hq
    by_cases hss : (getState eng t.sid).isSome = true
    · rw [if_pos hss] at hq
      obtain ⟨q0, hq0, hq0e⟩ := List.mem_map.mp hq
      by_cases hqk : q0.1 = t.sid
      · rw [if_pos hqk] at hq0e
        rw [← hq0e]
        exact hst
      · rw [if_neg hqk] at hq0e
        rw [← hq0e]
        exact heng q0 hq0
    · rw [if_neg hss] at hq
      rcases List.mem_append.mp hq with hq | hq
      · exact heng q hq
      · rw [List.mem_singleton] at hq
        rw [hq]
        exact hst

/-- Running any turn sequence preserves the schema-key invariant. -/
lemma runEngine_keys : ∀ (ts : List TurnInput) (eng : Engine),
    (∀ q ∈ eng, ∀ p ∈ q.2.fields, p.1 ∈ schemaKeys) →
    ∀ q ∈ runEngine eng ts, ∀ p ∈ q.2.fields, p.1 ∈ schemaKeys := by
  intro ts
  induction ts with
  | nil => intro eng heng; simpa [runEngine] using heng
  | cons t rest ih =>
    intro eng heng
    rw [runEngine, List.foldl_cons]
    exact ih _ (stepEngine_keys eng t heng)

/-- Claim C5: in every reachable session state, every key of the field map is
one of the fixed schema keys; extraction results with other keys are rejected
at the boundary and never stored. -/
theorem fields_keys_in_schema (ts : List TurnInput) (sid : String)
    (st : ConversationState) (k : String) (e : FieldEntry)
    (h1 : getState (runEngine engInit ts) sid = some st)
    (h2 : (k, e) ∈ st.fields) : k ∈ schemaKeys := by
  have h0 : ∀ q ∈ engInit, ∀ p ∈ q.2.fields, p.1 ∈ schemaKeys := by
    intro q hq
    cases hq
  obtain ⟨k0, hk0⟩ := getState_mem _ _ _ h1
  exact runEngine_keys ts engInit h0 (k0, st) hk0 (k, e) h2

/-- Witness for C5: the email turn stores the email entry, whose key is in
the schema. -/
theorem fields_keys_in_schema_witness : "email" ∈ schemaKeys :=
  fields_keys_in_schema [⟨"s1", Role.user, "my email is jane@example.com", 1⟩] "s1"
    (processTurn initState Role.user "my email is jane@example.com" 1) "email"
    ⟨"jane@example.com", Confidence.high, 1⟩ (by decide) (by decide)

/-! ### Claim C8: the engine is deterministic -/

/-- One processed turn acts on the timestamp-free core. -/
lemma stateCore_processTurn (st : ConversationState) (r : Role) (c : String) (ts : Nat) :
    stateCore (processTurn st r c ts) = coreStep (stateCore st) r c := by
  simp [stateCore, processTurn, coreStep, msgsRC, List.map_append, List.length_map]

/-- One guarded session step acts on the timestamp-free core. -/
lemma stateCore_stepState (st : ConversationState) (tr : Role × String × Nat) :
    stateCore (stepState st tr) =
      if isBlank tr.2.1 then stateCore st
      else coreStep (stateCore st) tr.1 tr.2.1 := by
  unfold stepState
  have hv : validSessionId "session" = true := by decide
  have h0 : getState [("session", st)] "session" = some st := by simp [getState]
  by_cases hb : isBlank tr.2.1 = true
  · rw [if_pos hb]
    simp [process_turn, hv, hb]
  · rw [if_neg hb]
    simp only [process_turn, if_pos hv, if_neg hb]
    rw [h0]
    simp only [Option.getD_some]
    rw [getState_setState_self]
    simp only [Option.getD_some]
    exact stateCore_processTurn st tr.1 tr.2.1 tr.2.2

/-- The core of a run depends only on the roles and contents of the turns. -/
lemma stateCore_runFrom : ∀ (ts : List (Role × String × Nat)) (st : ConversationState),
    stateCore (ts.foldl stepState st) =
      (ts.map (fun t => (t.1, t.2.1))).foldl
        (fun co rc => if isBlank rc.2 then co else coreStep co rc.1 rc.2)
        (stateCore st) := by
  intro ts
  induction ts with
  | nil => intro st; rfl
  | cons t rest ih =>
    intro st
    simp only [List.foldl_cons, List.map_cons]
    rw [ih, stateCore_stepState]

/-- Claim C8: `process_turn` is deterministic; two runs from the empty state
over message sequences that agree on roles and contents (whatever their
timestamps) produce identical final snapshots, so fields, completeness, the
completion flag, the lead score and the recommended actions all agree. -/
theorem process_turn_deterministic (ts1 ts2 : List (Role × String × Nat))
    (h : ts1.map (fun t => (t.1, t.2.1)) = ts2.map (fun t => (t.1, t.2.1))) :
    snapshotOf (runConversation ts1) = snapshotOf (runConversation ts2) := by
  unfold snapshotOf runConversation
  rw [stateCore_runFrom, stateCore_runFrom, h]

/-- Witness for C8: the same message at two different timestamps yields the
same snapshot. -/
theorem process_turn_deterministic_witness :
    snapshotOf (runConversation [(Role.user, "hello", 5)]) =
      snapshotOf (runConversation [(Role.user, "hello", 99)]) :=
  process_turn_deterministic [(Role.user, "hello", 5)] [(Role.user, "hello", 99)]
    (by decide)

/-! ### Claim C6: the phone extractor and its normalization -/

/-- The head of a list, when present, is a member. -/
lemma mem_of_head?_eq_some {α : Type} {l : List α} {a : α} (h : l.head? = some a) :
    a ∈ l := by
  cases l with
  | nil => simp at h
  | cons x xs =>
    simp only [List.head?_cons, Option.some.injEq] at h
    rw [← h]
    exact List.mem_cons_self _ _

/-- Updating an existing key makes the new entry visible under that key. -/
lemma lookupField_updateField_self {f : Fields} {k : String} {e : FieldEntry}
    (h : (lookupField f k).isSome = true) :
    lookupField (updateField f k e) k = some e := by
  induction f with
  | nil => simp [lookupField] at h
  | cons p rest ih =>
    by_cases hp : p.1 = k
    · simp [updateField, lookupField, hp]
    · simp [updateField, lookupField, hp] at h ⊢
      exact ih h

/-- Appending an entry for an absent key makes it visible under that key. -/
lemma lookupField_append_self {f : Fields} {k : String} {e : FieldEntry}
    (h : lookupField f k = none) :
    lookupField (f ++ [(k, e)]) k = some e := by
  induction f with
  | nil => simp [lookupField]
  | cons p rest ih =>
    by_cases hp : p.1 = k
    · simp [lookupField, hp] at h
    · simp [lookupField, hp] at h ⊢
      exact ih h

/-- A high-confidence merge always stores its value. -/
lemma lookupValue_mergeField_high (f : Fields) (turn : Nat) (k v : String) :
    lookupValue (mergeField turn f k v Confidence.high) k = some v := by
  unfold mergeField lookupValue
  split
  next old heq =>
    rw [if_neg (by rintro ⟨-, h2⟩; cases h2)]
    rw [lookupField_updateField_self (by rw [heq]; rfl)]
    rfl
  next heq =>
    rw [lookupField_append_self heq]
    rfl

/-- The accepted phone merge stores the canonical digits under `phone`. -/
lemma lookupValue_accept_phone (turn : Nat) (F : Fields) :
    lookupValue (acceptExtraction turn F ("phone", "5558675309", Confidence.high)) "phone" =
      some "5558675309" := by
  unfold acceptExtraction
  rw [if_pos (by decide : (("phone" : String), ("5558675309" : String),
    Confidence.high).1 ∈ schemaKeys)]
  exact lookupValue_mergeField_high F turn "phone" "5558675309"

/-- On the scenario phone message, the extractor battery yields at most a name
result followed by the normalized phone result. -/
lemma extractAll_phoneMsg (la : Option String) :
    extractAll "My phone is (555) 867-5309" la =
      (match extractName ("My phone is (555) 867-5309").data (la.map String.data) with
       | some nc => [("name", nc.1, nc.2)]
       | none => []) ++ [("phone", "5558675309", Confidence.high)] := by
  cases hn : extractName ("My phone is (555) 867-5309").data (la.map String.data) with
  | none =>
    simp only [extractAll]
    rw [hn]
    rfl
  | some nc =>
    simp only [extractAll]
    rw [hn]
    rfl

/-- Claim C6: every extracted phone value is digits-only with 7 to 15 digits,
and processing the user message containing the scenario phone number stores
the canonical digits under the `phone` field in any session state. -/
theorem phone_extractor_normalizes :
    (∀ (text p : String), extractPhone text = some p →
      p.data.all Char.isDigit = true ∧ 7 ≤ p.length ∧ p.length ≤ 15) ∧
    (∀ (st : ConversationState) (ts : Nat),
      lookupValue (processTurn st Role.user "My phone is (555) 867-5309" ts).fields
        "phone" = some "5558675309") := by
  constructor
  · intro text p h
    unfold extractPhone at h
    obtain ⟨ds, hhead, hmk⟩ := Option.map_eq_some'.mp h
    have hmem := mem_of_head?_eq_some hhead
    obtain ⟨hmem2, hpred⟩ := List.mem_filter.mp hmem
    have hbounds := of_decide_eq_true hpred
    obtain ⟨r, _, hre⟩ := List.mem_map.mp hmem2
    have hall : ds.all Char.isDigit = true := by
      rw [← hre, List.all_eq_true]
      intro c hc
      exact (List.mem_filter.mp hc).2
    rw [← hmk]
    exact ⟨hall, hbounds.1, hbounds.2⟩
  · intro st ts
    have hf : (processTurn st Role.user "My phone is (555) 867-5309" ts).fields =
        mergeExtractions (st.messages.length + 1) st.fields
          (extractAll "My phone is (555) 867-5309"
            (lastAssistantRC (msgsRC st.messages))) := by
      simp [processTurn]
    rw [hf, extractAll_phoneMsg]
    cases hn : extractName ("My phone is (555) 867-5309").data
        ((lastAssistantRC (msgsRC st.messages)).map String.data) with
    | none =>
      simp only [List.nil_append, mergeExtractions, List.foldl_cons, List.foldl_nil]
      exact lookupValue_accept_phone _ _
    | some nc =>
      simp only [List.cons_append, List.nil_append, mergeExtractions, List.foldl_cons,
        List.foldl_nil]
      exact lookupValue_accept_phone _ _

/-- Witness for C6: the scenario phone text itself extracts to the canonical
ten-digit form, which is digits-only and in bounds. -/
theorem phone_extractor_normalizes_witness :
    ("5558675309" : String).data.all Char.isDigit = true ∧
      7 ≤ ("5558675309" : String).length ∧ ("5558675309" : String).length ≤ 15 :=
  phone_extractor_normalizes.1 "My phone is (555) 867-5309" "5558675309" (by decide)

end ListingOne
